import Mathlib

/-!
# Verification of the AB_vector growable-array header

Shallow embedding of `src/AB_vector.h` (a generic resizable vector for C,
configured here as in the `AB_VEC_INCLUDE_USERDATA` build).

Modelling conventions:

* `AB_VEC_SIZE_T` values (`num`, `capacity`, indices, sizes) are `Nat`.
  The header documents that overflow of the size type on growth is
  undefined by design, so the defined domain is faithfully `Nat`;
  `capacity << 1` becomes `capacity * 2`.
* The backing buffer `elems` is a total function `Nat → α`; only indices
  below `capacity` correspond to allocated storage, access beyond it is
  undefined behaviour in C and unconstrained here.
* `AB_VEC_REALLOC` is modelled by two parameters: `alloc : Bool` tells
  whether the call returns a non-NULL pointer, and `fresh : Nat → α`
  gives the (unspecified) contents of newly exposed slots. A successful
  realloc keeps the first `min old_capacity new_capacity` elements,
  exactly as the C realloc contract keeps the first
  `min old_byte_size new_byte_size` bytes.
* Element sizes cancel everywhere except in `AB_vec_destroy`, where the
  byte size handed to `AB_VEC_FREE` is recorded explicitly.
* An operation that can fail returns `Option`: `none` is the nonzero
  error return (for resize/copy/push/insert) or the `AB_VEC_ASSERT`
  fault (for pop, whose only failure mode is the assertion).
* `userdata` is an opaque word, modelled as `Nat`; `NULL` is `0`.
-/

/-- The vector record: `struct AB_vector_generic` with
`AB_VEC_SIZE_T num, capacity; void *elems; void *userdata;`. -/
structure ABVec (α : Type) where
  num : Nat
  capacity : Nat
  elems : Nat → α
  userdata : Nat
  deriving Inhabited

/-- `AB_VEC_INIT` / `AB_vec_init`: num = capacity = 0, elems = NULL,
userdata = NULL. The NULL buffer is modelled by the default-everywhere
function, since no claim may read unallocated slots. -/
def AB_vec_init (α : Type) [Inhabited α] : ABVec α :=
  { num := 0, capacity := 0, elems := fun _ => default, userdata := 0 }

/-- `AB_vec_at(vec, idx)`: `(vec)->elems[idx]`, unchecked. -/
def AB_vec_at (vec : ABVec α) (idx : Nat) : α :=
  vec.elems idx

/-- `AB_vec_pop(vec)`: `(AB_VEC_ASSERT((vec)->num > 0), (vec)->elems[--(vec)->num])`.
`none` is the assertion fault on an empty vector. -/
def AB_vec_pop (vec : ABVec α) : Option (α × ABVec α) :=
  if vec.num = 0 then
    none
  else
    some (vec.elems (vec.num - 1), { vec with num := vec.num - 1 })

/-- `AB_vec_resize_generic(vec, new_size, elem_size)`: realloc the buffer
from `elem_size * capacity` to `elem_size * new_size` bytes. On realloc
failure it returns 1 leaving the vector untouched; on success it installs
the new buffer and sets `capacity = new_size`. The realloc keeps the
first `min capacity new_size` elements and exposes `fresh` junk above. -/
def AB_vec_resize_generic (alloc : Bool) (fresh : Nat → α) (vec : ABVec α)
    (new_size : Nat) : Option (ABVec α) :=
  if alloc then
    some { vec with
      capacity := new_size,
      elems := fun i => if i < min vec.capacity new_size then vec.elems i else fresh i }
  else
    none

/-- `AB_vec_push(vec, elem)`: when `num == capacity`, resize to
`capacity ? capacity << 1 : 2` and on success store at slot `num` and
increment it; otherwise store directly. `none` is the error return 1. -/
def AB_vec_push (alloc : Bool) (fresh : Nat → α) (vec : ABVec α) (elem : α) :
    Option (ABVec α) :=
  if vec.num = vec.capacity then
    match AB_vec_resize_generic alloc fresh vec
        (if vec.capacity = 0 then 2 else vec.capacity * 2) with
    | some v =>
      some { v with
        num := v.num + 1,
        elems := fun i => if i = v.num then elem else v.elems i }
    | none => none
  else
    some { vec with
      num := vec.num + 1,
      elems := fun i => if i = vec.num then elem else vec.elems i }

/-- `AB_vec_copy_generic(dest, src, entry_size)`: grow `dest` to the
capacity of `src` when smaller, set `dest->num = src->num`, then
`memcpy(dest->elems, src->elems, entry_size * src->capacity)`. -/
def AB_vec_copy_generic (alloc : Bool) (fresh : Nat → α) (dest src : ABVec α) :
    Option (ABVec α) :=
  if dest.capacity < src.capacity then
    match AB_vec_resize_generic alloc fresh dest src.capacity with
    | some d =>
      some { d with
        num := src.num,
        elems := fun i => if i < src.capacity then src.elems i else d.elems i }
    | none => none
  else
    some { dest with
      num := src.num,
      elems := fun i => if i < src.capacity then src.elems i else dest.elems i }

/-- Loop of `AB_vec_roundup_size_t`: `while (y <= x) y += y; return y;`.
The C loop terminates because `y` doubles from 1; the fuel `x + 1` given
below is an upper bound on the iteration count, and
`AB_vec_roundup_size_t_eq` proves the loop exits within it. -/
def roundupAux (x : Nat) : Nat → Nat → Nat
  | 0, y => y
  | fuel + 1, y => if y ≤ x then roundupAux x fuel (y + y) else y

/-- `AB_vec_roundup_size_t(x)`: `y = 1; if (x == 0) return 0;
while (y <= x) y += y; return y;`. -/
def AB_vec_roundup_size_t (x : Nat) : Nat :=
  if x = 0 then 0 else roundupAux x (x + 1) 1

/-- `AB_vec_insert_generic(vec, idx, elem_size)`: when `capacity <= idx`,
resize to `AB_VEC_SIZE_T_ROUNDUP(idx + 1)` (failure propagates as 1);
then when `num <= idx`, set `num = idx + 1`. -/
def AB_vec_insert_generic (alloc : Bool) (fresh : Nat → α) (vec : ABVec α)
    (idx : Nat) : Option (ABVec α) :=
  if vec.capacity ≤ idx then
    match AB_vec_resize_generic alloc fresh vec (AB_vec_roundup_size_t (idx + 1)) with
    | some v => some (if v.num ≤ idx then { v with num := idx + 1 } else v)
    | none => none
  else
    some (if vec.num ≤ idx then { vec with num := idx + 1 } else vec)

/-- `AB_vec_insert(vec, idx, elem)`: run `AB_vec_insert_generic` and on
its success perform `(vec)->elems[(idx)] = (elem)`. The `Bool` records
whether the generic step succeeded (`false` leaves the vector as it was). -/
def AB_vec_insert (alloc : Bool) (fresh : Nat → α) (vec : ABVec α)
    (idx : Nat) (elem : α) : ABVec α × Bool :=
  match AB_vec_insert_generic alloc fresh vec idx with
  | some v => ({ v with elems := fun i => if i = idx then elem else v.elems i }, true)
  | none => (vec, false)

/-- Value of the `AB_vec_insert` macro expression for an int vector:
`AB_vec_insert_generic(...) == 0 ? (vec)->elems[(idx)] = (elem) : 1`.
On success the conditional yields the value of the assignment, i.e.
`elem`; on failure it yields the literal 1. -/
def AB_vec_insert_ret (alloc : Bool) (fresh : Nat → Int) (vec : ABVec Int)
    (idx : Nat) (elem : Int) : Int :=
  match AB_vec_insert_generic alloc fresh vec idx with
  | some _ => elem
  | none => 1

/-- `AB_vec_destroy(vec)`: calls
`AB_VEC_FREE((vec)->elems, (vec)->capacity * sizeof(*(vec)->elems), (vec)->userdata)`.
The first component is the byte size handed to the release hook; the
second is the vector record afterwards — the macro writes none of its
fields back. -/
def AB_vec_destroy (elem_size : Nat) (vec : ABVec α) : Nat × ABVec α :=
  (vec.capacity * elem_size, vec)

/-- N sequential pushes starting from `AB_VEC_INIT`, pushing `f 0`, ...,
`f (N-1)` in order; any push failure propagates. -/
def pushSeq (alloc : Bool) (fresh f : Nat → Int) : Nat → Option (ABVec Int)
  | 0 => some (AB_vec_init Int)
  | n + 1 =>
    match pushSeq alloc fresh f n with
    | some v => AB_vec_push alloc fresh v (f n)
    | none => none

/-- Concrete vector used to instantiate theorems with hypotheses. -/
def wVecA : ABVec Int :=
  { num := 5, capacity := 8, elems := fun i => (i : Int), userdata := 3 }

/-- Concrete source vector for the copy instantiation. -/
def wVecB : ABVec Int :=
  { num := 2, capacity := 4, elems := fun i => (i : Int) + 10, userdata := 9 }

/-- Concrete destination vector for the copy instantiation. -/
def wVecC : ABVec Int :=
  { num := 0, capacity := 0, elems := fun _ => 0, userdata := 5 }

/-- Concrete nonempty vector for the destroy and pop instantiations. -/
def wVecD : ABVec Int :=
  { num := 3, capacity := 4, elems := fun i => (i : Int), userdata := 0 }

/-- Modelled from the spec: the smallest power of two that is `>= n`
(for `n >= 1`), used by the spec to describe capacity after N pushes
and the intended round-up policy. `smallestPow2GE_spec` checks it
against those words. -/
def smallestPow2GE (n : Nat) : Nat :=
  2 ^ Nat.clog 2 n

theorem smallestPow2GE_spec (n : Nat) :
    n ≤ smallestPow2GE n ∧ (∃ k, smallestPow2GE n = 2 ^ k) ∧
      ∀ m, n ≤ 2 ^ m → smallestPow2GE n ≤ 2 ^ m := by
  refine ⟨Nat.le_pow_clog one_lt_two n, ⟨Nat.clog 2 n, rfl⟩, fun m hm => ?_⟩
  exact Nat.pow_le_pow_right (by norm_num) ((Nat.le_pow_iff_clog_le one_lt_two).1 hm)

theorem roundupAux_of_lt (x fuel y : Nat) (h : x < y) : roundupAux x fuel y = y := by
  cases fuel with
  | zero => rfl
  | succ fuel => rw [roundupAux, if_neg (by omega)]

theorem roundupAux_eq (fuel : Nat) : ∀ k x : Nat, x < 2 ^ (k + fuel) → 2 ^ k ≤ x →
    roundupAux x fuel (2 ^ k) = 2 ^ (Nat.log 2 x + 1) := by
  induction fuel with
  | zero =>
    intro k x hlt hle
    rw [Nat.add_zero] at hlt
    omega
  | succ fuel ih =>
    intro k x hlt hle
    rw [roundupAux, if_pos hle]
    have hpow : (2 : Nat) ^ k + 2 ^ k = 2 ^ (k + 1) := by
      rw [pow_succ]; omega
    rw [hpow]
    by_cases h : 2 ^ (k + 1) ≤ x
    · refine ih (k + 1) x ?_ h
      rw [show k + 1 + fuel = k + (fuel + 1) from by omega]
      exact hlt
    · rw [roundupAux_of_lt x fuel _ (by omega)]
      rw [Nat.log_eq_of_pow_le_of_lt_pow hle (by omega)]

theorem AB_vec_roundup_size_t_eq (x : Nat) (hx : 0 < x) :
    AB_vec_roundup_size_t x = 2 ^ (Nat.log 2 x + 1) := by
  unfold AB_vec_roundup_size_t
  rw [if_neg (by omega)]
  have h1 : (2 : Nat) ^ 0 ≤ x := by simpa using hx
  have h2 : x < 2 ^ (0 + (x + 1)) := by
    calc x < 2 ^ x := Nat.lt_two_pow x
    _ ≤ 2 ^ (0 + (x + 1)) := Nat.pow_le_pow_right (by norm_num) (by omega)
  have := roundupAux_eq (x + 1) 0 x h2 h1
  simpa using this

/-- Shape of a successful push: the length grows by one, the capacity
doubles (from 2 when it was 0) exactly when the vector was full and is
otherwise untouched, the new element sits at the old length, the first
old-length elements survive, and the userdata is untouched. -/
theorem push_some_fields (alloc : Bool) (fresh : Nat → Int) (v v' : ABVec Int)
    (e : Int) (h : AB_vec_push alloc fresh v e = some v') :
    v'.num = v.num + 1 ∧
    v'.capacity =
      (if v.num = v.capacity then (if v.capacity = 0 then 2 else v.capacity * 2)
       else v.capacity) ∧
    v'.elems v.num = e ∧
    (∀ i, i < v.num → v'.elems i = v.elems i) ∧
    v'.userdata = v.userdata := by
  unfold AB_vec_push AB_vec_resize_generic at h
  by_cases hfull : v.num = v.capacity
  · rw [if_pos hfull] at h
    cases alloc with
    | false => simp at h
    | true =>
      simp only [if_pos trivial] at h
      rw [Option.some.injEq] at h
      subst h
      refine ⟨rfl, by rw [if_pos hfull], by simp, fun i hi => ?_, rfl⟩
      simp only
      rw [if_neg (by omega)]
      by_cases hc0 : v.capacity = 0
      · omega
      · rw [if_pos (by simp [hc0]; omega)]
  · rw [if_neg hfull] at h
    rw [Option.some.injEq] at h
    subst h
    exact ⟨rfl, by rw [if_neg hfull], by simp, fun i hi => by simp; omega, rfl⟩

/-- C2 (amended): the default round-up function returns 0 on 0 and, for
every x > 0, the smallest power of two STRICTLY GREATER than x (hence
> x, in particular >= x); it is not idempotent on its own output: a
second application doubles the value. -/
theorem C2_roundup_behaviour (x : Nat) (hx : 0 < x) :
    AB_vec_roundup_size_t 0 = 0 ∧
    x < AB_vec_roundup_size_t x ∧
    AB_vec_roundup_size_t x = 2 ^ (Nat.log 2 x + 1) ∧
    (∀ m, x < 2 ^ m → AB_vec_roundup_size_t x ≤ 2 ^ m) ∧
    AB_vec_roundup_size_t (AB_vec_roundup_size_t x) = 2 * AB_vec_roundup_size_t x := by
  have heq := AB_vec_roundup_size_t_eq x hx
  refine ⟨rfl, ?_, heq, ?_, ?_⟩
  · rw [heq]
    exact Nat.lt_pow_succ_log_self (by norm_num) x
  · intro m hm
    rw [heq]
    have hlog : Nat.log 2 x < m := Nat.log_lt_of_lt_pow (by omega) hm
    exact Nat.pow_le_pow_right (by norm_num) (by omega)
  · rw [heq, AB_vec_roundup_size_t_eq _ (Nat.pos_pow_of_pos _ (by norm_num)),
      Nat.log_pow (by norm_num), pow_succ]
    ring

/-- C2 witness: instantiation of `C2_roundup_behaviour` at x = 3. -/
theorem C2_witness :
    0 < 3 ∧
    (AB_vec_roundup_size_t 0 = 0 ∧
     3 < AB_vec_roundup_size_t 3 ∧
     AB_vec_roundup_size_t 3 = 2 ^ (Nat.log 2 3 + 1) ∧
     (∀ m, 3 < 2 ^ m → AB_vec_roundup_size_t 3 ≤ 2 ^ m) ∧
     AB_vec_roundup_size_t (AB_vec_roundup_size_t 3) = 2 * AB_vec_roundup_size_t 3) :=
  ⟨by decide, C2_roundup_behaviour 3 (by decide)⟩

/-- C2 counterexample: roundup(1) = 2, although the smallest power of two
>= 1 is 1 itself, so the claimed characterization fails; moreover
roundup(roundup(1)) = 4 ≠ 2 = roundup(1), so roundup is not idempotent
on its own output. -/
theorem C2_counterexample :
    AB_vec_roundup_size_t 1 = 2 ∧
    (1 : Nat) = 2 ^ 0 ∧ (1 : Nat) ≤ 1 ∧ (2 : Nat) ≠ 1 ∧
    AB_vec_roundup_size_t (AB_vec_roundup_size_t 1) = 4 ∧
    AB_vec_roundup_size_t (AB_vec_roundup_size_t 1) ≠ AB_vec_roundup_size_t 1 := by
  decide

/-- C4: when the allocator hook fails during the growth step of insert
(growth happens exactly when capacity <= idx), the insert reports
failure and returns the vector with length, capacity and all stored
elements exactly as before, and the macro expression evaluates to 1. -/
theorem C4_insert_alloc_failure (fresh : Nat → Int) (vec : ABVec Int)
    (idx : Nat) (elem : Int) (hgrow : vec.capacity ≤ idx) :
    AB_vec_insert false fresh vec idx elem = (vec, false) ∧
    AB_vec_insert_ret false fresh vec idx elem = 1 := by
  unfold AB_vec_insert AB_vec_insert_ret AB_vec_insert_generic AB_vec_resize_generic
  rw [if_pos hgrow]
  exact ⟨rfl, rfl⟩

/-- C4 witness: instantiation of `C4_insert_alloc_failure` on a fresh
vector at index 0. -/
theorem C4_witness :
    (AB_vec_init Int).capacity ≤ 0 ∧
    (AB_vec_insert false (fun _ => 0) (AB_vec_init Int) 0 7 = (AB_vec_init Int, false) ∧
     AB_vec_insert_ret false (fun _ => 0) (AB_vec_init Int) 0 7 = 1) :=
  ⟨by decide, C4_insert_alloc_failure (fun _ => 0) (AB_vec_init Int) 0 7 (by decide)⟩

/-- C7 (amended): destroy hands the byte size capacity * sizeof(elem) of
the current storage to the release hook, but performs NO reset: the
macro leaves num, capacity, elems and userdata exactly as they were. -/
theorem C7_destroy_no_reset (elem_size : Nat) (vec : ABVec Int) :
    AB_vec_destroy elem_size vec = (vec.capacity * elem_size, vec) :=
  rfl

/-- C7 counterexample: destroying a vector with num = 3, capacity = 4 and
element size 8 passes 32 bytes to the release hook but leaves the record
with num = 3 and capacity = 4 — not the empty state num = capacity = 0
required by the claim. -/
theorem C7_counterexample :
    (AB_vec_destroy 8 wVecD).1 = 32 ∧
    (AB_vec_destroy 8 wVecD).2.num = 3 ∧
    (AB_vec_destroy 8 wVecD).2.capacity = 4 ∧
    ¬((AB_vec_destroy 8 wVecD).2.num = 0 ∧ (AB_vec_destroy 8 wVecD).2.capacity = 0) := by
  decide

/-- C8: a successful resize sets capacity to exactly the requested value
and leaves the length untouched; when the request is below the current
length this leaves length > capacity, so the core does not restore the
length <= capacity invariant. -/
theorem C8_resize_exact (alloc : Bool) (fresh : Nat → Int) (vec : ABVec Int)
    (new_size : Nat) (hok : (AB_vec_resize_generic alloc fresh vec new_size).isSome = true) :
    ∃ v, AB_vec_resize_generic alloc fresh vec new_size = some v ∧
      v.capacity = new_size ∧ v.num = vec.num ∧
      (new_size < vec.num → v.capacity < v.num) := by
  unfold AB_vec_resize_generic at hok ⊢
  cases alloc with
  | false => simp at hok
  | true =>
    refine ⟨_, rfl, rfl, rfl, ?_⟩
    intro hlt
    simpa using hlt

/-- C8 witness: instantiation of `C8_resize_exact` shrinking a vector of
length 5 and capacity 8 down to capacity 3. -/
theorem C8_witness :
    (AB_vec_resize_generic true (fun _ => (0 : Int)) wVecA 3).isSome = true ∧
    (∃ v, AB_vec_resize_generic true (fun _ => (0 : Int)) wVecA 3 = some v ∧
      v.capacity = 3 ∧ v.num = wVecA.num ∧ (3 < wVecA.num → v.capacity < v.num)) :=
  ⟨by decide, C8_resize_exact true (fun _ => (0 : Int)) wVecA 3 (by decide)⟩

/-- C9: pop on every vector with length 0 — in particular on a freshly
constructed one — takes the assertion fault path and yields no value,
while a vector with length > 0 never reaches the fault branch. -/
theorem C9_pop_empty_faults :
    (∀ v : ABVec Int, v.num = 0 → AB_vec_pop v = none) ∧
    AB_vec_pop (AB_vec_init Int) = none ∧
    ∀ v : ABVec Int, 0 < v.num → (AB_vec_pop v).isSome = true := by
  refine ⟨fun v hv => ?_, rfl, fun v hv => ?_⟩
  · unfold AB_vec_pop
    rw [if_pos hv]
  · unfold AB_vec_pop
    rw [if_neg (by omega)]
    rfl

/-- C9 witness: instantiations of `C9_pop_empty_faults`: the fault branch
on an empty vector of capacity 4, and the non-fault branch on a vector
of length 3. -/
theorem C9_witness :
    (({ num := 0, capacity := 4, elems := fun _ => 0, userdata := 1 } : ABVec Int).num = 0 ∧
      AB_vec_pop
        ({ num := 0, capacity := 4, elems := fun _ => 0, userdata := 1 } : ABVec Int) = none) ∧
    (0 < wVecD.num ∧ (AB_vec_pop wVecD).isSome = true) :=
  ⟨⟨by decide,
    C9_pop_empty_faults.1
      { num := 0, capacity := 4, elems := fun _ => 0, userdata := 1 } (by decide)⟩,
   ⟨by decide, C9_pop_empty_faults.2.2 wVecD (by decide)⟩⟩

/-- C10: the insert macro expression yields the assigned element value on
success and the literal 1 on allocation failure, so a successful insert
of the value 1 and a failed insert return the same value — success is
not signalled by 0 and is indistinguishable from failure for nonzero
element values. -/
theorem C10_insert_return_value :
    (∀ (alloc : Bool) (fresh : Nat → Int) (vec : ABVec Int) (idx : Nat) (elem : Int),
      ((AB_vec_insert alloc fresh vec idx elem).2 = true →
        AB_vec_insert_ret alloc fresh vec idx elem = elem) ∧
      ((AB_vec_insert alloc fresh vec idx elem).2 = false →
        AB_vec_insert_ret alloc fresh vec idx elem = 1)) ∧
    (AB_vec_insert true (fun _ => 0) (AB_vec_init Int) 5 1).2 = true ∧
    (AB_vec_insert false (fun _ => 0) (AB_vec_init Int) 5 1).2 = false ∧
    AB_vec_insert_ret true (fun _ => 0) (AB_vec_init Int) 5 1 =
      AB_vec_insert_ret false (fun _ => 0) (AB_vec_init Int) 5 1 := by
  refine ⟨fun alloc fresh vec idx elem => ?_, by decide, by decide, by decide⟩
  unfold AB_vec_insert AB_vec_insert_ret
  cases AB_vec_insert_generic alloc fresh vec idx with
  | none => exact ⟨fun h => by simp at h, fun _ => rfl⟩
  | some v => exact ⟨fun _ => rfl, fun h => by simp at h⟩

/-- C10 witness: instantiation of the quantified part of
`C10_insert_return_value`: a successful insert of 7 at index 0 of a
fresh vector returns 7, and a failed insert there returns 1. -/
theorem C10_witness :
    ((AB_vec_insert true (fun _ => 0) (AB_vec_init Int) 0 7).2 = true →
      AB_vec_insert_ret true (fun _ => 0) (AB_vec_init Int) 0 7 = 7) ∧
    AB_vec_insert_ret true (fun _ => 0) (AB_vec_init Int) 0 7 = 7 ∧
    AB_vec_insert_ret false (fun _ => 0) (AB_vec_init Int) 0 7 = 1 :=
  ⟨(C10_insert_return_value.1 true (fun _ => 0) (AB_vec_init Int) 0 7).1,
   (C10_insert_return_value.1 true (fun _ => 0) (AB_vec_init Int) 0 7).1 (by decide),
   (C10_insert_return_value.1 false (fun _ => 0) (AB_vec_init Int) 0 7).2 (by decide)⟩

/-- C3: for a vector satisfying the data-model invariant length <=
capacity, a successful insert at idx >= length sets length to idx + 1
and stores the element at idx, while insert at idx < length is a plain
overwrite of slot idx: length and capacity are untouched and every
other slot keeps its value. -/
theorem C3_insert_effect (alloc : Bool) (fresh : Nat → Int) (vec : ABVec Int)
    (idx : Nat) (elem : Int) (hinv : vec.num ≤ vec.capacity)
    (hok : (AB_vec_insert alloc fresh vec idx elem).2 = true) :
    (vec.num ≤ idx →
      (AB_vec_insert alloc fresh vec idx elem).1.num = idx + 1 ∧
      AB_vec_at (AB_vec_insert alloc fresh vec idx elem).1 idx = elem) ∧
    (idx < vec.num →
      (AB_vec_insert alloc fresh vec idx elem).1.num = vec.num ∧
      (AB_vec_insert alloc fresh vec idx elem).1.capacity = vec.capacity ∧
      AB_vec_at (AB_vec_insert alloc fresh vec idx elem).1 idx = elem ∧
      ∀ j, j ≠ idx →
        AB_vec_at (AB_vec_insert alloc fresh vec idx elem).1 j = AB_vec_at vec j) := by
  cases hg : AB_vec_insert_generic alloc fresh vec idx with
  | none =>
    rw [show AB_vec_insert alloc fresh vec idx elem = (vec, false) from by
      unfold AB_vec_insert; rw [hg]] at hok
    simp at hok
  | some v =>
    have hI : AB_vec_insert alloc fresh vec idx elem =
        ({ v with elems := fun i => if i = idx then elem else v.elems i }, true) := by
      unfold AB_vec_insert; rw [hg]
    rw [hI]
    constructor
    · intro hle
      refine ⟨?_, by simp [AB_vec_at]⟩
      unfold AB_vec_insert_generic at hg
      by_cases hcap : vec.capacity ≤ idx
      · rw [if_pos hcap] at hg
        unfold AB_vec_resize_generic at hg
        cases alloc with
        | false => simp at hg
        | true =>
          simp only [if_pos trivial] at hg
          rw [Option.some.injEq] at hg
          rw [if_pos (by simpa using hle)] at hg
          rw [← hg]
      · rw [if_neg hcap, Option.some.injEq, if_pos hle] at hg
        rw [← hg]
    · intro hlt
      have hcap : ¬ vec.capacity ≤ idx := by omega
      unfold AB_vec_insert_generic at hg
      rw [if_neg hcap, Option.some.injEq, if_neg (by omega)] at hg
      subst hg
      refine ⟨rfl, rfl, by simp [AB_vec_at], fun j hj => ?_⟩
      simp only [AB_vec_at]
      rw [if_neg hj]

/-- C3 witness: instantiation of `C3_insert_effect` on a vector with
length 2 and capacity 4, inserting 42 at index 1. -/
theorem C3_witness :
    wVecB.num ≤ wVecB.capacity ∧
    (AB_vec_insert true (fun _ => 0) wVecB 1 42).2 = true ∧
    ((wVecB.num ≤ 1 →
      (AB_vec_insert true (fun _ => 0) wVecB 1 42).1.num = 1 + 1 ∧
      AB_vec_at (AB_vec_insert true (fun _ => 0) wVecB 1 42).1 1 = 42) ∧
     (1 < wVecB.num →
      (AB_vec_insert true (fun _ => 0) wVecB 1 42).1.num = wVecB.num ∧
      (AB_vec_insert true (fun _ => 0) wVecB 1 42).1.capacity = wVecB.capacity ∧
      AB_vec_at (AB_vec_insert true (fun _ => 0) wVecB 1 42).1 1 = 42 ∧
      ∀ j, j ≠ 1 →
        AB_vec_at (AB_vec_insert true (fun _ => 0) wVecB 1 42).1 j = AB_vec_at wVecB j)) :=
  ⟨by decide, by decide, C3_insert_effect true (fun _ => 0) wVecB 1 42 (by decide) (by decide)⟩

/-- C5: a successful push of x followed by pop returns exactly x and
leaves the length and every previously stored element as they were
before the push. -/
theorem C5_push_pop_inverse (alloc : Bool) (fresh : Nat → Int) (vec : ABVec Int)
    (x : Int) (hok : (AB_vec_push alloc fresh vec x).isSome = true) :
    ∃ v1 v2, AB_vec_push alloc fresh vec x = some v1 ∧
      AB_vec_pop v1 = some (x, v2) ∧
      v2.num = vec.num ∧
      ∀ i, i < vec.num → AB_vec_at v2 i = AB_vec_at vec i := by
  obtain ⟨v1, hv1⟩ := Option.isSome_iff_exists.mp hok
  obtain ⟨hnum, hcap, hlast, hpres, hud⟩ := push_some_fields alloc fresh vec v1 x hv1
  refine ⟨v1, { v1 with num := v1.num - 1 }, hv1, ?_, by simp; omega, ?_⟩
  · unfold AB_vec_pop
    rw [if_neg (by omega)]
    have h1 : v1.num - 1 = vec.num := by omega
    rw [h1, hlast]
  · intro i hi
    simpa [AB_vec_at] using hpres i hi

/-- C5 witness: instantiation of `C5_push_pop_inverse` pushing 99 onto a
vector of length 5. -/
theorem C5_witness :
    (AB_vec_push true (fun _ => 0) wVecA 99).isSome = true ∧
    (∃ v1 v2, AB_vec_push true (fun _ => 0) wVecA 99 = some v1 ∧
      AB_vec_pop v1 = some (99, v2) ∧
      v2.num = wVecA.num ∧
      ∀ i, i < wVecA.num → AB_vec_at v2 i = AB_vec_at wVecA i) :=
  ⟨by decide, C5_push_pop_inverse true (fun _ => 0) wVecA 99 (by decide)⟩

/-- C6: for a source vector satisfying the data-model invariant length <=
capacity, a successful copy gives the destination the length of the
source, element-wise equal contents below that length, a capacity at
least the capacity of the source, and an untouched userdata field. -/
theorem C6_copy_semantics (alloc : Bool) (fresh : Nat → Int) (dest src : ABVec Int)
    (hinv : src.num ≤ src.capacity)
    (hok : (AB_vec_copy_generic alloc fresh dest src).isSome = true) :
    ∃ d, AB_vec_copy_generic alloc fresh dest src = some d ∧
      d.num = src.num ∧
      (∀ i, i < src.num → AB_vec_at d i = AB_vec_at src i) ∧
      src.capacity ≤ d.capacity ∧
      d.userdata = dest.userdata := by
  unfold AB_vec_copy_generic AB_vec_resize_generic at hok ⊢
  by_cases hc : dest.capacity < src.capacity
  · rw [if_pos hc] at hok ⊢
    cases alloc with
    | false => simp at hok
    | true =>
      simp only [if_pos trivial]
      refine ⟨_, rfl, rfl, fun i hi => ?_, by simp, rfl⟩
      simp only [AB_vec_at]
      rw [if_pos (by omega)]
  · rw [if_neg hc] at hok ⊢
    refine ⟨_, rfl, rfl, fun i hi => ?_, by simp; omega, rfl⟩
    simp only [AB_vec_at]
    rw [if_pos (by omega)]

/-- C6 witness: instantiation of `C6_copy_semantics` copying a vector of
length 2 and capacity 4 into a fresh destination with userdata 5. -/
theorem C6_witness :
    wVecB.num ≤ wVecB.capacity ∧
    (AB_vec_copy_generic true (fun _ => 0) wVecC wVecB).isSome = true ∧
    (∃ d, AB_vec_copy_generic true (fun _ => 0) wVecC wVecB = some d ∧
      d.num = wVecB.num ∧
      (∀ i, i < wVecB.num → AB_vec_at d i = AB_vec_at wVecB i) ∧
      wVecB.capacity ≤ d.capacity ∧
      d.userdata = wVecC.userdata) :=
  ⟨by decide, by decide,
   C6_copy_semantics true (fun _ => 0) wVecC wVecB (by decide) (by decide)⟩

/-- A push with a succeeding allocator never fails. -/
theorem push_true_isSome (fresh : Nat → Int) (v : ABVec Int) (e : Int) :
    (AB_vec_push true fresh v e).isSome = true := by
  unfold AB_vec_push AB_vec_resize_generic
  by_cases h : v.num = v.capacity
  · rw [if_pos h]
    simp only [if_pos trivial]
    rfl
  · rw [if_neg h]
    rfl

theorem smallestPow2GE_two : smallestPow2GE 2 = 2 := by
  unfold smallestPow2GE
  have hclog2 : Nat.clog 2 2 = 1 := by
    rw [Nat.clog_of_two_le one_lt_two (by norm_num)]
    norm_num
  rw [hclog2, pow_one]

/-- Loop invariant for sequential pushes from the empty vector: after
n > 0 successful pushes the length is n, it does not exceed the
capacity, and the capacity is the smallest power of two that is at
least max n 2. -/
theorem pushSeq_invariant (fresh f : Nat → Int) (n : Nat) : 0 < n →
    ∃ v, pushSeq true fresh f n = some v ∧ v.num = n ∧
      v.num ≤ v.capacity ∧ v.capacity = smallestPow2GE (max n 2) := by
  induction n with
  | zero => exact fun h => absurd h (by omega)
  | succ n ih =>
    intro _
    cases Nat.eq_zero_or_pos n with
    | inl h0 =>
      subst h0
      have hps : pushSeq true fresh f 1 = AB_vec_push true fresh (AB_vec_init Int) (f 0) := by
        rfl
      obtain ⟨v', hv'⟩ :=
        Option.isSome_iff_exists.mp (push_true_isSome fresh (AB_vec_init Int) (f 0))
      obtain ⟨hnum, hcap, _, _, _⟩ :=
        push_some_fields true fresh (AB_vec_init Int) v' (f 0) hv'
      simp [AB_vec_init] at hnum hcap
      refine ⟨v', by rw [hps, hv'], by omega, by omega, ?_⟩
      rw [show max 1 2 = 2 from rfl, smallestPow2GE_two]
      simpa using hcap
    | inr hpos =>
      obtain ⟨v, hv, hvnum, hvinv, hvcap⟩ := ih hpos
      have hstep : pushSeq true fresh f (n + 1) = AB_vec_push true fresh v (f n) := by
        unfold pushSeq
        rw [hv]
      obtain ⟨v', hv'⟩ := Option.isSome_iff_exists.mp (push_true_isSome fresh v (f n))
      obtain ⟨hnum, hcap, _, _, _⟩ := push_some_fields true fresh v v' (f n) hv'
      have hsp := (smallestPow2GE_spec (max n 2)).1
      have hc2 : 2 ≤ v.capacity := by
        rw [hvcap]
        omega
      refine ⟨v', by rw [hstep, hv'], by omega, ?_, ?_⟩
      · rw [hcap]
        by_cases hfull : v.num = v.capacity
        · rw [if_pos hfull, if_neg (by omega)]
          omega
        · rw [if_neg hfull]
          omega
      · by_cases hfull : v.num = v.capacity
        · rw [if_pos hfull, if_neg (by omega)] at hcap
          have hn2 : 2 ≤ n := by omega
          have hmaxn : max n 2 = n := by omega
          have hk : v.capacity = 2 ^ Nat.clog 2 n := by
            rw [hvcap, hmaxn]
            rfl
          have hnk : n = 2 ^ Nat.clog 2 n := by omega
          have h1 : Nat.clog 2 (n + 1) ≤ Nat.clog 2 n + 1 := by
            rw [← Nat.le_pow_iff_clog_le one_lt_two, pow_succ, ← hnk]
            omega
          have h2 : Nat.clog 2 n + 1 ≤ Nat.clog 2 (n + 1) := by
            by_contra hcon
            push_neg at hcon
            have hle : n + 1 ≤ 2 ^ Nat.clog 2 n :=
              (Nat.le_pow_iff_clog_le one_lt_two).2 (by omega)
            omega
          have hclog : Nat.clog 2 (n + 1) = Nat.clog 2 n + 1 := le_antisymm h1 h2
          have hmax1 : max (n + 1) 2 = n + 1 := by omega
          unfold smallestPow2GE
          rw [hmax1, hclog, pow_succ, hcap, hk]
        · rw [if_neg hfull] at hcap
          have hmono : smallestPow2GE (max n 2) ≤ smallestPow2GE (max (n + 1) 2) :=
            Nat.pow_le_pow_right (by norm_num)
              (Nat.clog_mono_right 2 (by omega))
          have hup : smallestPow2GE (max (n + 1) 2) ≤ v.capacity := by
            have hmle : max (n + 1) 2 ≤ v.capacity := by omega
            have hpow : (2 : Nat) ^ Nat.clog 2 (max n 2) = v.capacity := by
              rw [hvcap]
              rfl
            have hmin := (smallestPow2GE_spec (max (n + 1) 2)).2.2
              (Nat.clog 2 (max n 2)) (by rw [hpow]; exact hmle)
            rw [hpow] at hmin
            exact hmin
          omega

/-- C1 (amended): from the empty vector, N sequential successful pushes
give capacity equal to the smallest power of two >= N for every N >= 2,
and capacity 2 after the first push (the doubling start, although the
smallest power of two >= 1 is 1); capacity never decreases at any push,
and the doubling policy new_cap = (capacity == 0 ? 2 : capacity * 2)
fires exactly when length == capacity, the capacity being untouched
otherwise. -/
theorem C1_capacity_after_pushes :
    (∀ fresh f : Nat → Int, ∀ N, 2 ≤ N →
      ∃ v, pushSeq true fresh f N = some v ∧ v.num = N ∧
        v.capacity = smallestPow2GE N) ∧
    (∀ fresh f : Nat → Int,
      ∃ v, pushSeq true fresh f 1 = some v ∧ v.num = 1 ∧ v.capacity = 2) ∧
    (∀ (alloc : Bool) (fresh : Nat → Int) (v : ABVec Int) (e : Int),
      (AB_vec_push alloc fresh v e).isSome = true →
      ∃ v', AB_vec_push alloc fresh v e = some v' ∧
        v.capacity ≤ v'.capacity ∧
        (v.num ≠ v.capacity → v'.capacity = v.capacity) ∧
        (v.num = v.capacity →
          v'.capacity = if v.capacity = 0 then 2 else v.capacity * 2)) := by
  refine ⟨fun fresh f N hN => ?_, fun fresh f => ?_, fun alloc fresh v e hok => ?_⟩
  · obtain ⟨v, hv, hnum, _, hcap⟩ := pushSeq_invariant fresh f N (by omega)
    exact ⟨v, hv, hnum, by rw [hcap, show max N 2 = N from by omega]⟩
  · obtain ⟨v, hv, hnum, _, hcap⟩ := pushSeq_invariant fresh f 1 (by omega)
    refine ⟨v, hv, hnum, ?_⟩
    rw [hcap, show max 1 2 = 2 from rfl, smallestPow2GE_two]
  · obtain ⟨v', hv'⟩ := Option.isSome_iff_exists.mp hok
    obtain ⟨_, hcap, _, _, _⟩ := push_some_fields alloc fresh v v' e hv'
    refine ⟨v', hv', ?_, fun hne => by rw [hcap, if_neg hne],
      fun heq => by rw [hcap, if_pos heq]⟩
    rw [hcap]
    by_cases h : v.num = v.capacity
    · rw [if_pos h]
      by_cases h0 : v.capacity = 0
      · rw [if_pos h0]
        omega
      · rw [if_neg h0]
        omega
    · rw [if_neg h]

/-- C1 witness: instantiations of `C1_capacity_after_pushes`: 4 pushes
from empty give capacity smallestPow2GE 4, and a successful push on a
concrete non-full vector keeps its capacity. -/
theorem C1_witness :
    (2 ≤ 4 ∧
      ∃ v, pushSeq true (fun _ => 0) (fun _ => 0) 4 = some v ∧ v.num = 4 ∧
        v.capacity = smallestPow2GE 4) ∧
    ((AB_vec_push true (fun _ => 0) wVecA 1).isSome = true ∧
      ∃ v', AB_vec_push true (fun _ => 0) wVecA 1 = some v' ∧
        wVecA.capacity ≤ v'.capacity ∧
        (wVecA.num ≠ wVecA.capacity → v'.capacity = wVecA.capacity) ∧
        (wVecA.num = wVecA.capacity →
          v'.capacity = if wVecA.capacity = 0 then 2 else wVecA.capacity * 2)) :=
  ⟨⟨by decide, C1_capacity_after_pushes.1 (fun _ => 0) (fun _ => 0) 4 (by decide)⟩,
   ⟨by decide, C1_capacity_after_pushes.2.2 true (fun _ => 0) wVecA 1 (by decide)⟩⟩

/-- C1 counterexample: a single successful push from the empty vector
leaves capacity 2, but the smallest power of two >= 1 is 1, so the
claimed formula fails at N = 1. -/
theorem C1_counterexample :
    (pushSeq true (fun _ => 0) (fun _ => 0) 1).map ABVec.capacity = some 2 ∧
    smallestPow2GE 1 = 1 ∧ (2 : Nat) ≠ 1 := by
  refine ⟨by decide, ?_, by decide⟩
  unfold smallestPow2GE
  rw [Nat.clog_one_right, pow_zero]
